import Mathlib

/-!
Verification development for the cable.rs repository (wire codec in
`cable/src/message.rs` and peer session manager in
`cable_core/src/manager.rs`).

The Rust code is shallowly embedded: bytes are `Nat` values below 256 in
lists, machine integers are `Nat` (with `% 256` where the source casts to
`u8`), fallible code returns `Except`, and Rust panics are modelled as
dedicated error constructors so that a panicking execution is
distinguishable from a clean error return.
-/

namespace Cable

/-- A single byte, kept as a `Nat` (values are below 256 by construction). -/
abbrev Byte := Nat

/-- 32-byte post hash (`Hash` alias in the source). -/
abbrev Hash := List Byte

/-- 4-byte request ID (`ReqId` alias in the source). -/
abbrev ReqId := List Byte

/-- 4-byte circuit ID (`CircuitId` alias in the source). -/
abbrev CircuitId := List Byte

/-- Channel name; the source uses a Rust `String`, embedded here as its
UTF-8 bytes (`String::len` and `String::as_bytes` act on those bytes). -/
abbrev Chan := List Byte

/-- An encoded post (`EncodedPost = Vec<u8>` in the source). -/
abbrev EncodedPost := List Byte

/-! ## Varint codec

Modelled from the spec: the `desert::varint` collaborator (§4.1), a
standard unsigned LEB128 variable-length integer over 64-bit values,
least-significant 7-bit group first, continuation bit `0x80`.
-/

/-- Modelled from the spec: `varint::length(v)`, the number of bytes of the
minimal LEB128 encoding of a 64-bit value. -/
def varint_length (value : Nat) : Nat :=
  if value < 2 ^ 7 then 1
  else if value < 2 ^ 14 then 2
  else if value < 2 ^ 21 then 3
  else if value < 2 ^ 28 then 4
  else if value < 2 ^ 35 then 5
  else if value < 2 ^ 42 then 6
  else if value < 2 ^ 49 then 7
  else if value < 2 ^ 56 then 8
  else if value < 2 ^ 63 then 9
  else 10

/-- Fuel-bounded LEB128 encoder body; fuel 9 suffices for every 64-bit
value (at most 10 emitted groups). -/
def varint_encode_aux : Nat → Nat → List Byte
  | 0, v => [v % 128]
  | fuel + 1, v =>
    if v < 128 then [v] else (v % 128 + 128) :: varint_encode_aux fuel (v / 128)

/-- Modelled from the spec: `varint::encode(v, buf)`, producing the minimal
LEB128 byte sequence of a 64-bit value. -/
def varint_encode (v : Nat) : List Byte := varint_encode_aux 9 v

/-- Codec error kinds (`CableErrorKind` in the source, plus explicit
constructors for the Rust panics the decoder can hit; a panic aborts the
task and is not a `CableError`). -/
inductive CodecError where
  /-- Empty input (`MessageEmpty`). -/
  | messageEmpty
  /-- Truncated or overlong varint (`InvalidVarint`). -/
  | invalidVarint
  /-- Buffer shorter than the declared length (`ShortBuffer`); present in
  the error taxonomy but, as proved below, never raised by `from_bytes`. -/
  | shortBuffer (required provided : Nat)
  /-- Fewer than 32 bytes remaining where a hash is required
  (`MessageHashResponseEnd`). -/
  | hashTruncated
  /-- Invalid UTF-8 in a channel name (`InvalidChannelEncoding`). -/
  | invalidChannelEncoding
  /-- Destination buffer too small when writing (`DstTooSmall`). -/
  | dstTooSmall (required provided : Nat)
  /-- Attempt to encode an unrecognized message
  (`MessageWriteUnrecognizedType`). -/
  | writeUnrecognizedType (msg_type : Nat)
  /-- Rust panic: slice index out of range (`buf[a..b]` with `b > len`). -/
  | panicOutOfRange
  /-- Rust panic: `copy_from_slice` between slices of different lengths. -/
  | panicSliceLenMismatch
  deriving DecidableEq

/-- LEB128 decoder body: accumulator, shift and consumed-byte counter.
Fails on truncated input or on a value extending beyond 64 bits. -/
def varint_decode_aux : List Byte → Nat → Nat → Nat → Except CodecError (Nat × Nat)
  | [], _, _, _ => .error .invalidVarint
  | b :: rest, shift, acc, consumed =>
    if 64 ≤ shift then .error .invalidVarint
    else if b < 128 then .ok (consumed + 1, acc + b * 2 ^ shift)
    else varint_decode_aux rest (shift + 7) (acc + b % 128 * 2 ^ shift) (consumed + 1)

/-- Modelled from the spec: `varint::decode(buf) → (bytes read, value)`. -/
def varint_decode (buf : List Byte) : Except CodecError (Nat × Nat) :=
  varint_decode_aux buf 0 0 0

/-! ## UTF-8 validation

`String::from_utf8` in the source validates the channel bytes; this is the
standard UTF-8 well-formedness check (disallowing overlong forms,
surrogates and code points above U+10FFFF).
-/

/-- A UTF-8 continuation byte (`0x80 ..= 0xBF`). -/
def is_utf8_cont (b : Byte) : Bool := 0x80 ≤ b && b ≤ 0xBF

/-- Standard UTF-8 well-formedness of a byte sequence. -/
def utf8_valid : List Byte → Bool
  | [] => true
  | b :: rest =>
    if b ≤ 0x7F then utf8_valid rest
    else if 0xC2 ≤ b && b ≤ 0xDF then
      match rest with
      | c1 :: r => is_utf8_cont c1 && utf8_valid r
      | [] => false
    else if b = 0xE0 then
      match rest with
      | c1 :: c2 :: r => (0xA0 ≤ c1 && c1 ≤ 0xBF) && is_utf8_cont c2 && utf8_valid r
      | _ => false
    else if (0xE1 ≤ b && b ≤ 0xEC) || b = 0xEE || b = 0xEF then
      match rest with
      | c1 :: c2 :: r => is_utf8_cont c1 && is_utf8_cont c2 && utf8_valid r
      | _ => false
    else if b = 0xED then
      match rest with
      | c1 :: c2 :: r => (0x80 ≤ c1 && c1 ≤ 0x9F) && is_utf8_cont c2 && utf8_valid r
      | _ => false
    else if b = 0xF0 then
      match rest with
      | c1 :: c2 :: c3 :: r =>
        (0x90 ≤ c1 && c1 ≤ 0xBF) && is_utf8_cont c2 && is_utf8_cont c3 && utf8_valid r
      | _ => false
    else if 0xF1 ≤ b && b ≤ 0xF3 then
      match rest with
      | c1 :: c2 :: c3 :: r =>
        is_utf8_cont c1 && is_utf8_cont c2 && is_utf8_cont c3 && utf8_valid r
      | _ => false
    else if b = 0xF4 then
      match rest with
      | c1 :: c2 :: c3 :: r =>
        (0x80 ≤ c1 && c1 ≤ 0x8F) && is_utf8_cont c2 && is_utf8_cont c3 && utf8_valid r
      | _ => false
    else false

/-! ## Message data model (`cable/src/message.rs`) -/

/-- The header of a request or response message (`MessageHeader`). -/
structure MessageHeader where
  msg_type : Nat
  circuit_id : CircuitId
  req_id : ReqId
  deriving DecidableEq

/-- Request body variants (`RequestBody`). -/
inductive RequestBody where
  | post (hashes : List Hash)
  | cancel (cancel_id : ReqId)
  | channelTimeRange (channel : Chan) (time_start time_end limit : Nat)
  | channelState (channel : Chan) (future : Nat)
  | channelList (skip limit : Nat)
  deriving DecidableEq

/-- Response body variants (`ResponseBody`). -/
inductive ResponseBody where
  | hash (hashes : List Hash)
  | post (posts : List EncodedPost)
  | channelList (channels : List Chan)
  deriving DecidableEq

/-- Message body (`MessageBody`); requests additionally carry a TTL
(a `u8` in the source). -/
inductive MessageBody where
  | request (ttl : Nat) (body : RequestBody)
  | response (body : ResponseBody)
  | unrecognized (msg_type : Nat)
  deriving DecidableEq

/-- A wire message (`Message`). -/
structure Message where
  header : MessageHeader
  body : MessageBody
  deriving DecidableEq

/-- `Message::message_type`: the numeric type identifier, derived from the
body. -/
def message_type (m : Message) : Nat :=
  match m.body with
  | .request _ rb =>
    match rb with
    | .post _ => 2
    | .cancel _ => 3
    | .channelTimeRange .. => 4
    | .channelState .. => 5
    | .channelList .. => 6
  | .response rb =>
    match rb with
    | .hash _ => 0
    | .post _ => 1
    | .channelList _ => 7
  | .unrecognized t => t

/-! ## `CountBytes` implementation -/

/-- Body-size part of `Message::count_bytes`. -/
def count_bytes_body : MessageBody → Nat
  | .request ttl rb =>
    match rb with
    | .post hashes =>
      varint_length ttl + varint_length hashes.length + hashes.length * 32
    | .cancel _ => varint_length ttl + 4
    | .channelTimeRange channel time_start time_end limit =>
      varint_length ttl + varint_length channel.length + channel.length +
        varint_length time_start + varint_length time_end + varint_length limit
    | .channelState channel future =>
      varint_length ttl + varint_length channel.length + channel.length +
        varint_length future
    | .channelList skip limit =>
      varint_length ttl + varint_length skip + varint_length limit
  | .response rb =>
    match rb with
    | .hash hashes => varint_length hashes.length + hashes.length * 32
    | .post posts =>
      posts.foldl (fun sum p => sum + varint_length p.length + p.length) 0 +
        varint_length 0
    | .channelList channels =>
      channels.foldl (fun sum c => sum + varint_length c.length + c.length) 0 +
        varint_length 0
  | .unrecognized _ => 0

/-- `Message::count_bytes`: total encoded size, the varint length of the
message size plus the message size itself. -/
def count_bytes (m : Message) : Nat :=
  let header_size := varint_length (message_type m) + 4 + 4
  let body_size := count_bytes_body m.body
  let message_size := header_size + body_size
  varint_length message_size + message_size

/-- `Message::count_from_bytes`: varint bytes read plus the declared
message length. -/
def count_from_bytes (buf : List Byte) : Except CodecError Nat :=
  if buf.length = 0 then .error .messageEmpty
  else
    match varint_decode buf with
    | .ok (s, msg_len) => .ok (s + msg_len)
    | .error e => .error e

/-! ## `ToBytes` implementation

`write_bytes` fills a zeroed buffer of `count_bytes` bytes left to right;
writes are modelled as list appends, with the source's explicit
`DstTooSmall` guards kept against the buffer length.
-/

/-- Hash-writing loop of `write_bytes` (used by the post request and the
hash response), with the source's `DstTooSmall` guard. -/
def write_hashes (buf_len : Nat) (acc : List Byte) : List Hash → Except CodecError (List Byte)
  | [] => .ok acc
  | h :: hs =>
    if buf_len < acc.length + h.length then
      .error (.dstTooSmall (acc.length + h.length) buf_len)
    else write_hashes buf_len (acc ++ h) hs

/-- Post-writing loop of `write_bytes` (post response), each post length
prefixed, with a `0` terminator after the last one. -/
def write_posts (buf_len : Nat) (acc : List Byte) : List EncodedPost → Except CodecError (List Byte)
  | [] => .ok (acc ++ varint_encode 0)
  | p :: ps =>
    if buf_len < acc.length + p.length then
      .error (.dstTooSmall (acc.length + p.length) buf_len)
    else write_posts buf_len (acc ++ varint_encode p.length ++ p) ps

/-- Channel-writing loop of `write_bytes` (channel list response), each
name length prefixed, with a `0` terminator after the last one. -/
def write_channels (buf_len : Nat) (acc : List Byte) : List Chan → Except CodecError (List Byte)
  | [] => .ok (acc ++ varint_encode 0)
  | c :: cs =>
    if buf_len < acc.length + c.length then
      .error (.dstTooSmall (acc.length + c.length) buf_len)
    else write_channels buf_len (acc ++ varint_encode c.length ++ c) cs

/-- `Message::write_bytes` into a buffer of `buf_len` bytes. The length
field is computed, as in the source, as `count_bytes` minus the varint
length of `count_bytes`. -/
def write_bytes (m : Message) (buf_len : Nat) : Except CodecError (List Byte) :=
  let msg_len := count_bytes m - varint_length (count_bytes m)
  let acc := varint_encode msg_len ++ varint_encode (message_type m) ++
    m.header.circuit_id ++ m.header.req_id
  match m.body with
  | .request ttl rb =>
    match rb with
    | .post hashes =>
      write_hashes buf_len (acc ++ varint_encode ttl ++ varint_encode hashes.length) hashes
    | .cancel cancel_id => .ok (acc ++ varint_encode ttl ++ cancel_id)
    | .channelTimeRange channel time_start time_end limit =>
      .ok (acc ++ varint_encode ttl ++ varint_encode channel.length ++ channel ++
        varint_encode time_start ++ varint_encode time_end ++ varint_encode limit)
    | .channelState channel future =>
      .ok (acc ++ varint_encode ttl ++ varint_encode channel.length ++ channel ++
        varint_encode future)
    | .channelList skip limit =>
      .ok (acc ++ varint_encode ttl ++ varint_encode skip ++ varint_encode limit)
  | .response rb =>
    match rb with
    | .hash hashes => write_hashes buf_len (acc ++ varint_encode hashes.length) hashes
    | .post posts => write_posts buf_len acc posts
    | .channelList channels => write_channels buf_len acc channels
  | .unrecognized t => .error (.writeUnrecognizedType t)

/-- `Message::to_bytes`: allocate `count_bytes` zeroed bytes, write, and
return the whole buffer (unwritten tail bytes stay zero, as in the
source's `vec![0; count]`). -/
def to_bytes (m : Message) : Except CodecError (List Byte) :=
  match write_bytes m (count_bytes m) with
  | .ok acc => .ok (acc ++ List.replicate (count_bytes m - acc.length) 0)
  | .error e => .error e

/-! ## `FromBytes` implementation -/

/-- `buf[offset .. offset+n]`, panicking (as Rust slicing does) when the
range exceeds the buffer. -/
def read_exact (buf : List Byte) (offset n : Nat) : Except CodecError (List Byte) :=
  if offset + n ≤ buf.length then .ok ((buf.drop offset).take n)
  else .error .panicOutOfRange

/-- Hash-reading loop of `from_bytes`: the source checks
`offset + 32 > buf.len()` and raises `MessageHashResponseEnd` before each
32-byte copy. Returns the final offset and the hashes. -/
def read_hashes (buf : List Byte) : Nat → Nat → Except CodecError (Nat × List Hash)
  | offset, 0 => .ok (offset, [])
  | offset, n + 1 =>
    if buf.length < offset + 32 then .error .hashTruncated
    else
      match read_hashes buf (offset + 32) n with
      | .ok (off, hs) => .ok (off, (buf.drop offset).take 32 :: hs)
      | .error e => .error e

/-- Channel-name read: a Rust slice (panicking when out of range) passed
through `String::from_utf8` (UTF-8 validation). -/
def read_channel (buf : List Byte) (offset len : Nat) : Except CodecError (List Byte) :=
  if buf.length < offset + len then .error .panicOutOfRange
  else
    let bytes := (buf.drop offset).take len
    if utf8_valid bytes then .ok bytes else .error .invalidChannelEncoding

/-- `Message::from_bytes`. Faithful to the source, including its quirks:
the computed `msg_len` is never compared against the buffer length; in the
channel time range and channel state arms the offset is advanced by the
varint length `s` of `channel_len` instead of by `channel_len` after the
channel is read; the post response arm panics on any nonzero `post_len`
(`Vec::with_capacity` produces an empty vector, so `copy_from_slice`
hits a length mismatch); and there is no arm for `msg_type` 7, which
therefore decodes as `Unrecognized`. -/
def from_bytes (buf : List Byte) : Except CodecError (Nat × Message) := do
  if buf.length = 0 then throw .messageEmpty
  let (s, num_bytes) ← varint_decode buf
  let offset := s
  let _msg_len := num_bytes + s
  let (s, msg_type) ← varint_decode (buf.drop offset)
  let offset := offset + s
  let circuit_id ← read_exact buf offset 4
  let offset := offset + 4
  let req_id ← read_exact buf offset 4
  let offset := offset + 4
  let header : MessageHeader := ⟨msg_type, circuit_id, req_id⟩
  match msg_type with
  | 0 => do
    let (s, num_hashes) ← varint_decode (buf.drop offset)
    let offset := offset + s
    let (offset, hashes) ← read_hashes buf offset num_hashes
    return (offset, ⟨header, .response (.hash hashes)⟩)
  | 1 => do
    let (s, post_len) ← varint_decode (buf.drop offset)
    let offset := offset + s
    if post_len = 0 then return (offset, ⟨header, .response (.post [])⟩)
    else if buf.length < offset + post_len then throw .panicOutOfRange
    else throw .panicSliceLenMismatch
  | 2 => do
    let (s, ttl) ← varint_decode (buf.drop offset)
    let offset := offset + s
    let (s, num_hashes) ← varint_decode (buf.drop offset)
    let offset := offset + s
    let (offset, hashes) ← read_hashes buf offset num_hashes
    return (offset, ⟨header, .request (ttl % 256) (.post hashes)⟩)
  | 3 => do
    let (s, ttl) ← varint_decode (buf.drop offset)
    let offset := offset + s
    let cancel_id ← read_exact buf offset 4
    let offset := offset + 4
    return (offset, ⟨header, .request (ttl % 256) (.cancel cancel_id)⟩)
  | 4 => do
    let (s, ttl) ← varint_decode (buf.drop offset)
    let offset := offset + s
    let (s, channel_len) ← varint_decode (buf.drop offset)
    let offset := offset + s
    let channel ← read_channel buf offset channel_len
    let offset := offset + s
    let (s, time_start) ← varint_decode (buf.drop offset)
    let offset := offset + s
    let (s, time_end) ← varint_decode (buf.drop offset)
    let offset := offset + s
    let (s, limit) ← varint_decode (buf.drop offset)
    let offset := offset + s
    return (offset,
      ⟨header, .request (ttl % 256) (.channelTimeRange channel time_start time_end limit)⟩)
  | 5 => do
    let (s, ttl) ← varint_decode (buf.drop offset)
    let offset := offset + s
    let (s, channel_len) ← varint_decode (buf.drop offset)
    let offset := offset + s
    let channel ← read_channel buf offset channel_len
    let offset := offset + s
    let (s, future) ← varint_decode (buf.drop offset)
    let offset := offset + s
    return (offset, ⟨header, .request (ttl % 256) (.channelState channel future)⟩)
  | 6 => do
    let (s, ttl) ← varint_decode (buf.drop offset)
    let offset := offset + s
    let (s, skip) ← varint_decode (buf.drop offset)
    let offset := offset + s
    let (s, limit) ← varint_decode (buf.drop offset)
    let offset := offset + s
    return (offset, ⟨header, .request (ttl % 256) (.channelList skip limit)⟩)
  | t => return (offset, ⟨header, .unrecognized t⟩)

/-! ## Session manager (`cable_core/src/manager.rs`)

The manager's async methods are embedded as sequential state-transition
functions: each lock-protected section executes atomically in program
order, Store calls and peer-queue sends are recorded as events, and the
panic in the channel list handler is a dedicated error value. Lock
acquisition order, which the functional model abstracts away, is modelled
separately as a trace of lock operations (see `LockOp` below).
-/

/-- Machine-local peer identifier (`PeerId = usize`). -/
abbrev PeerId := Nat

/-- `ChannelOptions` (from the `cable` library, used by the manager):
channel, time range and limit of a channel time range request. -/
structure ChannelOptions where
  channel : Chan
  time_start : Nat
  time_end : Nat
  limit : Nat
  deriving DecidableEq

/-- The origin of a request (`RequestOrigin`). -/
inductive RequestOrigin where
  | local
  | remote
  deriving DecidableEq

/-- A decoded post; the manager treats posts opaquely (they belong to the
external post codec), so the model keeps the decoded value as bytes. -/
abbrev PostVal := List Byte

/-- Observable actions of a manager method: Store interface calls and
messages handed to peer queues or written directly to a peer stream. -/
inductive Event where
  | storeGetPostPayloads (hashes : List Hash)
  | storeGetPostHashes (opts : ChannelOptions)
  | storeGetChannels
  | storeWant (hashes : List Hash)
  | storeInsertPost (post : PostVal)
  | storeInsertChannels (channels : List Chan)
  | storeGetPostsLive (opts : ChannelOptions)
  /-- A message placed on the bounded queue of the given peer
  (`CableManager::send`). -/
  | sent (peer : PeerId) (msg : Message)
  /-- Encoded bytes written directly to the given peer's stream
  (`stream.write_all` in the replay pass). -/
  | wrote (peer : PeerId) (bytes : List Byte)
  deriving DecidableEq

/-- Pure view of the Store and post codec collaborators.
Modelled from the spec: the Store interface of §6.2 and the post codec of
§6.3 (`verify`, `from_bytes → (consumed, Post)`, `hash`), which live
outside `src/`. -/
structure StoreEnv where
  getPostPayloads : List Hash → List EncodedPost
  getPostHashes : ChannelOptions → List Hash
  getChannels : List Chan
  want : List Hash → List Hash
  postVerify : EncodedPost → Bool
  postFromBytes : EncodedPost → Nat × PostVal
  postHash : PostVal → Hash

/-- The shared session tables of `CableManager` (each behind its own
read/write lock in the source; the peer queue senders in `peers` are
represented by bare peer IDs). -/
structure ManagerState where
  peers : List PeerId
  last_peer_id : Nat
  last_req_id : Nat
  forwarded_requests : List (ReqId × List PeerId)
  handled_requests : List ReqId
  live_requests : List (PeerId × List (ReqId × ChannelOptions))
  outbound_requests : List (ReqId × RequestOrigin × Message)
  requested_posts : List Hash
  deriving DecidableEq

/-- Dispatcher failure: the Rust panic raised by `Vec::drain` in the
channel list handler when the range bounds are invalid. -/
inductive HandleErr where
  | panicDrain
  deriving DecidableEq

/-- The per-instance TTL constant used for locally originated requests
(`const TTL: u8 = 1`). -/
def TTL : Nat := 1

/-- `NO_CIRCUIT`: the all-zero circuit ID. -/
def NO_CIRCUIT : CircuitId := [0, 0, 0, 0]

/-- `HashMap::insert` on an association list: replace the first binding of
the key, or append a new binding. -/
def al_insert [DecidableEq κ] (k : κ) (v : α) : List (κ × α) → List (κ × α)
  | [] => [(k, v)]
  | (k₀, v₀) :: rest => if k₀ = k then (k, v) :: rest else (k₀, v₀) :: al_insert k v rest

/-- `HashMap::remove` on an association list: drop the first binding of
the key. -/
def al_remove [DecidableEq κ] (k : κ) : List (κ × α) → List (κ × α)
  | [] => []
  | (k₀, v₀) :: rest => if k₀ = k then rest else (k₀, v₀) :: al_remove k rest

/-- `HashMap::get` on an association list. -/
def al_lookup [DecidableEq κ] (k : κ) : List (κ × α) → Option α
  | [] => none
  | (k₀, v₀) :: rest => if k₀ = k then some v₀ else al_lookup k rest

/-- `HashSet::insert` on a list used as a set: add the element if absent. -/
def set_insert [DecidableEq α] (a : α) (l : List α) : List α :=
  if a ∈ l then l else l ++ [a]

/-- `HashSet::remove` on a list used as a set: drop the element. -/
def set_remove [DecidableEq α] (a : α) (l : List α) : List α :=
  l.filter (fun x => x ≠ a)

/-- Insert several elements (`for hash in &wanted { set.insert(hash) }`). -/
def insert_all [DecidableEq α] (xs l : List α) : List α :=
  xs.foldl (fun acc a => set_insert a acc) l

/-- `u32` increment with wrap at `u32::MAX` (`CableManager::new_req_id`). -/
def next_u32 (last : Nat) : Nat := if last = 2 ^ 32 - 1 then 0 else last + 1

/-- Big-endian bytes of a `u32` (desert's `u32::to_bytes`; the spec notes
the counter encodes into the request ID big-endian). -/
def u32_to_bytes (n : Nat) : List Byte :=
  [n / 2 ^ 24 % 256, n / 2 ^ 16 % 256, n / 2 ^ 8 % 256, n % 256]

/-- Modelled from the spec: `Message::hash_response` constructor. -/
def hash_response (circuit_id : CircuitId) (req_id : ReqId) (hashes : List Hash) : Message :=
  ⟨⟨0, circuit_id, req_id⟩, .response (.hash hashes)⟩

/-- Modelled from the spec: `Message::post_response` constructor. -/
def post_response (circuit_id : CircuitId) (req_id : ReqId) (posts : List EncodedPost) : Message :=
  ⟨⟨1, circuit_id, req_id⟩, .response (.post posts)⟩

/-- Modelled from the spec: `Message::channel_list_response` constructor. -/
def channel_list_response (circuit_id : CircuitId) (req_id : ReqId)
    (channels : List Chan) : Message :=
  ⟨⟨7, circuit_id, req_id⟩, .response (.channelList channels)⟩

/-- Modelled from the spec: `Message::post_request` constructor. -/
def post_request (circuit_id : CircuitId) (req_id : ReqId) (ttl : Nat)
    (hashes : List Hash) : Message :=
  ⟨⟨2, circuit_id, req_id⟩, .request ttl (.post hashes)⟩

/-- Modelled from the spec: `Message::cancel_request` constructor. -/
def cancel_request (circuit_id : CircuitId) (req_id : ReqId) (ttl : Nat)
    (cancel_id : ReqId) : Message :=
  ⟨⟨3, circuit_id, req_id⟩, .request ttl (.cancel cancel_id)⟩

/-- Modelled from the spec: `Message::channel_time_range_request`
constructor. -/
def channel_time_range_request (circuit_id : CircuitId) (req_id : ReqId) (ttl : Nat)
    (opts : ChannelOptions) : Message :=
  ⟨⟨4, circuit_id, req_id⟩,
   .request ttl (.channelTimeRange opts.channel opts.time_start opts.time_end opts.limit)⟩

/-- Modelled from the spec: `Message::decrement_ttl` (§4.3 "decrements its
TTL by one"); responses are unchanged. -/
def decrement_ttl (m : Message) : Message :=
  match m.body with
  | .request ttl rb => ⟨m.header, .request (ttl - 1) rb⟩
  | b => ⟨m.header, b⟩

/-- `CableManager::decrement_ttl_and_write_to_outbound`: record the
message under the incoming request ID with origin `Remote` and TTL
decremented. -/
def forward_insert (st : ManagerState) (msg : Message) : ManagerState :=
  let ob := al_insert msg.header.req_id (RequestOrigin.remote, decrement_ttl msg)
    st.outbound_requests
  { st with outbound_requests := ob }

/-- `CableManager::send`: enqueue for the peer when it is registered,
silently do nothing otherwise. -/
def send_events (st : ManagerState) (peer : PeerId) (msg : Message) : List Event :=
  if peer ∈ st.peers then [.sent peer msg] else []

/-- Hash-stream drain loop shared by the channel time range handler and
`send_post_hashes`: push each yielded hash, then break once the collected
count reaches the limit (so even `limit = 0` yields one hash when the
stream is non-empty, as in the source). -/
def stream_collect (n_limit : Nat) : List Hash → List Hash
  | [] => []
  | h :: rest => if n_limit ≤ 1 then [h] else h :: stream_collect (n_limit - 1) rest

/-- `live_requests` update in the channel time range handler: push onto
the peer's vector, creating it when absent. -/
def push_live (peer : PeerId) (x : ReqId × ChannelOptions)
    (l : List (PeerId × List (ReqId × ChannelOptions))) :
    List (PeerId × List (ReqId × ChannelOptions)) :=
  match al_lookup peer l with
  | some rs => al_insert peer (rs ++ [x]) l
  | none => al_insert peer [x] l

/-- Post response loop of `CableManager::handle`: verify each encoded
post, decode it, drop it unless its byte count matches and its hash is in
`requested_posts`, otherwise remove the hash and insert the post into the
Store. Returns the final `requested_posts` and the Store events. -/
def process_posts (env : StoreEnv) : List Hash → List EncodedPost → List Hash × List Event
  | requested, [] => (requested, [])
  | requested, pb :: rest =>
    if !env.postVerify pb then process_posts env requested rest
    else if (env.postFromBytes pb).1 ≠ pb.length then process_posts env requested rest
    else if env.postHash (env.postFromBytes pb).2 ∈ requested then
      ((process_posts env (set_remove (env.postHash (env.postFromBytes pb).2) requested) rest).1,
       Event.storeInsertPost (env.postFromBytes pb).2 ::
         (process_posts env (set_remove (env.postHash (env.postFromBytes pb).2) requested) rest).2)
    else process_posts env requested rest

/-- The body dispatch of `CableManager::handle` (everything between the
duplicate check and the final `handled_requests` insert). -/
def handle_body (env : StoreEnv) (st : ManagerState) (peer_id : PeerId) (msg : Message) :
    Except HandleErr (ManagerState × List Event) :=
  let circuit_id := msg.header.circuit_id
  let req_id := msg.header.req_id
  match msg.body with
  | .request ttl rb =>
    match rb with
    | .post hashes =>
      let st := if ttl > 0 then forward_insert st msg else st
      let posts := env.getPostPayloads hashes
      let response := post_response circuit_id req_id posts
      .ok (st, [.storeGetPostPayloads hashes] ++ send_events st peer_id response)
    | .cancel cancel_id =>
      let st := forward_insert st msg
      .ok ({ st with outbound_requests := al_remove cancel_id st.outbound_requests }, [])
    | .channelTimeRange channel time_start time_end limit =>
      let st := if ttl > 0 then forward_insert st msg else st
      let opts : ChannelOptions := ⟨channel, time_start, time_end, limit⟩
      let n_limit := min limit 4096
      let hashes := stream_collect n_limit (env.getPostHashes opts)
      let response := hash_response circuit_id req_id hashes
      let st := if time_end = 0 then
          { st with live_requests := push_live peer_id (req_id, opts) st.live_requests }
        else st
      .ok (st, [.storeGetPostHashes opts] ++ send_events st peer_id response)
    | .channelState _ _ =>
      let st := if ttl > 0 then forward_insert st msg else st
      .ok (st, [])
    | .channelList skip limit =>
      let st := if ttl > 0 then forward_insert st msg else st
      let n_limit := min limit 4096
      let all_channels := env.getChannels
      if skip ≤ n_limit ∧ n_limit ≤ all_channels.length then
        let channels := (all_channels.drop skip).take (n_limit - skip)
        let response := channel_list_response circuit_id req_id channels
        .ok (st, [.storeGetChannels] ++ send_events st peer_id response)
      else .error .panicDrain
  | .response rb =>
    match rb with
    | .hash hashes =>
      let wanted := env.want hashes
      if wanted.isEmpty then .ok (st, [.storeWant hashes])
      else
        let n := next_u32 st.last_req_id
        let new_req_id := u32_to_bytes n
        let request := post_request circuit_id new_req_id TTL wanted
        let st := { st with last_req_id := n }
        let evs := [Event.storeWant hashes] ++ send_events st peer_id request
        .ok ({ st with requested_posts := insert_all wanted st.requested_posts }, evs)
    | .post posts =>
      let next := process_posts env st.requested_posts posts
      .ok ({ st with requested_posts := next.1 }, next.2)
    | .channelList channels =>
      .ok (st, [.storeInsertChannels channels])
  | .unrecognized _ => .ok (st, [])

/-- `CableManager::handle`: drop the message when its request ID was
already handled; otherwise dispatch on the body and, on normal exit,
insert the request ID into `handled_requests`. -/
def handle (env : StoreEnv) (st : ManagerState) (peer_id : PeerId) (msg : Message) :
    Except HandleErr (ManagerState × List Event) :=
  if msg.header.req_id ∈ st.handled_requests then .ok (st, [])
  else
    match handle_body env st peer_id msg with
    | .ok (st₁, evs) =>
      .ok ({ st₁ with handled_requests := set_insert msg.header.req_id st₁.handled_requests },
        evs)
    | .error e => .error e

/-- Cancel pre-block of the replay loop (the `if let RequestBody::Cancel`
block): `.ok none` models `continue 'requests`, `.ok (some _)` models
falling through to the TTL check (having possibly written the cancel and
updated `forwarded_requests`). -/
def replay_cancel_step (peer_id : PeerId) (st : ManagerState) (evs : List Event)
    (origin : RequestOrigin) (msg : Message) (rb : RequestBody) :
    Except CodecError (Option (ManagerState × List Event)) :=
  match rb, origin with
  | .cancel cancel_id, .remote =>
    match al_lookup cancel_id st.forwarded_requests with
    | some prs =>
      if peer_id ∈ prs then
        match to_bytes msg with
        | .ok bytes =>
          let prs₁ := set_remove peer_id prs
          let fwd := if prs₁.isEmpty then al_remove cancel_id st.forwarded_requests
            else al_insert cancel_id prs₁ st.forwarded_requests
          .ok (some ({ st with forwarded_requests := fwd }, evs ++ [.wrote peer_id bytes]))
        | .error e => .error e
      else .ok none
    | none => .ok (some (st, evs))
  | _, _ => .ok (some (st, evs))

/-- TTL check and send of the replay loop, applied after the cancel
pre-block fell through: a zero TTL deletes the entry; otherwise the
message is written and remote-origin entries record the peer in
`forwarded_requests`. -/
def replay_send_step (peer_id : PeerId) (st : ManagerState) (evs : List Event)
    (req_id : ReqId) (origin : RequestOrigin) (msg : Message) (ttl : Nat) :
    Except CodecError (ManagerState × List Event) :=
  if ttl = 0 then
    .ok ({ st with outbound_requests := al_remove req_id st.outbound_requests }, evs)
  else
    match to_bytes msg with
    | .ok bytes =>
      match origin with
      | .remote =>
        let fwd := match al_lookup req_id st.forwarded_requests with
          | some prs => al_insert req_id (set_insert peer_id prs) st.forwarded_requests
          | none => al_insert req_id [peer_id] st.forwarded_requests
        .ok ({ st with forwarded_requests := fwd }, evs ++ [Event.wrote peer_id bytes])
      | .local => .ok (st, evs ++ [Event.wrote peer_id bytes])
    | .error e => .error e

/-- One iteration of the replay loop in
`CableManager::process_and_send_outbound_requests` for the entry
`(req_id, origin, msg)`, mirroring the source's control flow: the cancel
pre-block may write and fall through to the TTL check, `continue` to the
next entry, or fall through untouched. -/
def process_one (peer_id : PeerId) (st : ManagerState) (evs : List Event)
    (req_id : ReqId) (origin : RequestOrigin) (msg : Message) :
    Except CodecError (ManagerState × List Event) :=
  match msg.body with
  | .request ttl rb =>
    match replay_cancel_step peer_id st evs origin msg rb with
    | .error e => .error e
    | .ok none => .ok (st, evs)
    | .ok (some (st₂, evs₂)) => replay_send_step peer_id st₂ evs₂ req_id origin msg ttl
  | _ => .ok (st, evs)

/-- Loop of `process_and_send_outbound_requests` over a snapshot of the
outbound table. -/
def process_outbound_loop (peer_id : PeerId) :
    List (ReqId × RequestOrigin × Message) → ManagerState → List Event →
    Except CodecError (ManagerState × List Event)
  | [], st, evs => .ok (st, evs)
  | (req_id, origin, msg) :: rest, st, evs =>
    match process_one peer_id st evs req_id origin msg with
    | .ok (st₁, evs₁) => process_outbound_loop peer_id rest st₁ evs₁
    | .error e => .error e

/-- `CableManager::process_and_send_outbound_requests` (replay pass over
`outbound_requests` for a newly connected peer). The source iterates the
table while holding its read guard; the model iterates the entry list
taken at entry. -/
def process_and_send_outbound_requests (peer_id : PeerId) (st : ManagerState) :
    Except CodecError (ManagerState × List Event) :=
  process_outbound_loop peer_id st.outbound_requests st []

/-- Inner loop of `CableManager::send_post_hashes` over one peer's live
requests. -/
def send_post_hashes_for_peer (env : StoreEnv) (st : ManagerState) (peer : PeerId) :
    List (ReqId × ChannelOptions) → List Event
  | [] => []
  | rq :: rest =>
    let limit := min rq.2.limit 4096
    let hashes := stream_collect limit (env.getPostHashes rq.2)
    let response := hash_response NO_CIRCUIT rq.1 hashes
    [Event.storeGetPostHashes rq.2] ++ send_events st peer response ++
      send_post_hashes_for_peer env st peer rest

/-- Outer loop of `send_post_hashes` over the live request table. -/
def send_post_hashes_loop (env : StoreEnv) (st : ManagerState) :
    List (PeerId × List (ReqId × ChannelOptions)) → List Event
  | [] => []
  | pr :: rest =>
    send_post_hashes_for_peer env st pr.1 pr.2 ++ send_post_hashes_loop env st rest

/-- `CableManager::send_post_hashes`: for every live request, drain the
matching post hashes from the Store (limit clamped to 4096) and send a
hash response to the subscribed peer. The session tables are unchanged. -/
def send_post_hashes (env : StoreEnv) (st : ManagerState) : List Event :=
  send_post_hashes_loop env st st.live_requests

/-- `CableManager::open_channel` (state and events): generate a request
ID, record the local channel time range request, broadcast it, and read
the live post stream from the Store. -/
def open_channel_state (st : ManagerState) (opts : ChannelOptions) :
    ManagerState × List Event :=
  let n := next_u32 st.last_req_id
  let req_id := u32_to_bytes n
  let request := channel_time_range_request NO_CIRCUIT req_id TTL opts
  let ob := al_insert req_id (RequestOrigin.local, request) st.outbound_requests
  ({ st with last_req_id := n, outbound_requests := ob },
   st.peers.map (fun p => Event.sent p request) ++ [.storeGetPostsLive opts])

/-- Request IDs collected by `CableManager::close_channel`: the outbound
channel time range requests of local origin whose channel matches. -/
def close_channel_matching_ids (outbound : List (ReqId × RequestOrigin × Message))
    (close_channel : Chan) : List ReqId :=
  (outbound.filter (fun e =>
    match e.2.2.body with
    | .request _ (.channelTimeRange channel _ _ _) =>
      decide (e.2.1 = RequestOrigin.local) && decide (channel = close_channel)
    | _ => false)).map (fun e => e.1)

/-- Per-ID loop of `close_channel`: generate a cancel request, record it
as a local outbound request, broadcast it, and remove the cancelled ID. -/
def close_channel_loop : List ReqId → ManagerState → List Event → ManagerState × List Event
  | [], st, evs => (st, evs)
  | cid :: rest, st, evs =>
    let n := next_u32 st.last_req_id
    let req_id := u32_to_bytes n
    let request := cancel_request NO_CIRCUIT req_id TTL cid
    let ob := al_insert req_id (RequestOrigin.local, request) st.outbound_requests
    let st := { st with last_req_id := n, outbound_requests := ob }
    let evs := evs ++ st.peers.map (fun p => Event.sent p request)
    let st := { st with outbound_requests := al_remove cid st.outbound_requests }
    close_channel_loop rest st evs

/-- `CableManager::close_channel` (state and events under the sequential
reading of the source; its lock behaviour, which in fact self-deadlocks,
is modelled separately by `close_channel_lock_trace`). -/
def close_channel_state (st : ManagerState) (channel : Chan) : ManagerState × List Event :=
  close_channel_loop (close_channel_matching_ids st.outbound_requests channel) st []

/-- Peer-session cleanup at the end of `CableManager::listen`: only the
`peers` entry is removed. -/
def listen_cleanup (st : ManagerState) (peer_id : PeerId) : ManagerState :=
  { st with peers := st.peers.filter (fun p => p ≠ peer_id) }

/-! ## Lock-order model

`close_channel`'s claim about lock discipline is about acquisition order,
not state, so the sequence of lock operations the method attempts is
modelled directly from the source text.
-/

/-- The session-table locks of `CableManager`. -/
inductive LockId where
  | peers
  | lastPeerId
  | lastReqId
  | forwardedRequests
  | handledRequests
  | liveRequests
  | outboundRequests
  | requestedPosts
  deriving DecidableEq

/-- A lock acquisition or release. -/
inductive LockOp where
  | acquire (l : LockId)
  | release (l : LockId)
  deriving DecidableEq

/-- Whether a trace attempts to acquire a lock that the same task already
holds (with the non-reentrant RwLocks of the source this is a
self-deadlock). -/
def has_nested_acquire : List LockId → List LockOp → Bool
  | _, [] => false
  | held, .acquire l :: rest => held.contains l || has_nested_acquire (l :: held) rest
  | held, .release l :: rest => has_nested_acquire (held.erase l) rest

/-- The lock operations `close_channel` attempts, in source order: it
takes the `outbound_requests` write guard for the whole method, and for
every matching request ID then acquires `last_req_id` (inside
`new_req_id`), `outbound_requests` again (the insert of the cancel
request), and `peers` (inside `broadcast`); the final `remove` reuses the
held guard. -/
def close_channel_lock_trace (outbound : List (ReqId × RequestOrigin × Message))
    (channel : Chan) : List LockOp :=
  [LockOp.acquire .outboundRequests] ++
    (close_channel_matching_ids outbound channel).foldl (fun ops _ =>
      ops ++ [LockOp.acquire .lastReqId, .release .lastReqId,
        .acquire .outboundRequests, .release .outboundRequests,
        .acquire .peers, .release .peers]) [] ++
    [LockOp.release .outboundRequests]

/-! ## Helper lemmas -/

instance {ε α : Type _} [DecidableEq ε] [DecidableEq α] : DecidableEq (Except ε α) :=
  fun a b =>
  match a, b with
  | .ok x, .ok y =>
    if h : x = y then .isTrue (by rw [h]) else .isFalse (fun hc => h (Except.ok.inj hc))
  | .ok _, .error _ => .isFalse (fun hc => Except.noConfusion hc)
  | .error _, .ok _ => .isFalse (fun hc => Except.noConfusion hc)
  | .error x, .error y =>
    if h : x = y then .isTrue (by rw [h]) else .isFalse (fun hc => h (Except.error.inj hc))

/-- Number of Store insertions of a post whose hash is `h` among a list of
events. -/
def insert_count (env : StoreEnv) (h : Hash) (evs : List Event) : Nat :=
  (evs.filter (fun e =>
    match e with
    | .storeInsertPost p => decide (env.postHash p = h)
    | _ => false)).length

/-- All live subscriptions recorded in a live request table, flattened to
`(peer, req_id, options)` triples. -/
def live_entries (l : List (PeerId × List (ReqId × ChannelOptions))) :
    List (PeerId × (ReqId × ChannelOptions)) :=
  l.flatMap (fun pr => pr.2.map (fun x => (pr.1, x)))

/-! ## Concrete inputs used by the claim theorems -/

/-- The request ID `04baaffb` of the spec's reference vectors (§6.1). -/
def req_id_tv : ReqId := [0x04, 0xba, 0xaf, 0xfb]

/-- UTF-8 bytes of the channel name of the reference vectors. -/
def channel_default : Chan := [0x64, 0x65, 0x66, 0x61, 0x75, 0x6c, 0x74]

/-- The §6.1 `ChannelTimeRange` reference message: channel of the
reference vectors, `time_start = 0`, `time_end = 100`, `limit = 20`,
`ttl = 1`. -/
def msg_ctr : Message :=
  ⟨⟨4, NO_CIRCUIT, req_id_tv⟩, .request 1 (.channelTimeRange channel_default 0 100 20)⟩

/-- The §6.1 `ChannelTimeRange` reference frame (22 bytes). -/
def bytes_ctr : List Byte :=
  [0x15, 0x04, 0, 0, 0, 0, 0x04, 0xba, 0xaf, 0xfb, 0x01, 0x07,
   0x64, 0x65, 0x66, 0x61, 0x75, 0x6c, 0x74, 0x00, 0x64, 0x14]

/-- What `from_bytes` actually produces from the encoding of `msg_ctr`:
the channel survives, but `time_start`, `time_end` and `limit` are read
from inside the channel bytes (values 101, 102, 97). -/
def msg_ctr_decoded : Message :=
  ⟨⟨4, NO_CIRCUIT, req_id_tv⟩, .request 1 (.channelTimeRange channel_default 101 102 97)⟩

/-- A post response whose header-plus-body size is 127 bytes (one post of
116 bytes), so that its frame size 128 sits just past the one-byte varint
boundary. -/
def msg_pr127 : Message :=
  ⟨⟨1, NO_CIRCUIT, req_id_tv⟩, .response (.post [List.replicate 116 7])⟩

/-- A channel list request frame whose wire TTL is 17. -/
def buf_ttl17 : List Byte :=
  [12, 6, 0, 0, 0, 0, 0x04, 0xba, 0xaf, 0xfb, 17, 0, 20]

/-- A channel list request frame whose wire TTL is 300 (varint `ac 02`). -/
def buf_ttl300 : List Byte :=
  [13, 6, 0, 0, 0, 0, 0x04, 0xba, 0xaf, 0xfb, 0xac, 0x02, 0, 20]

/-- A cancel request frame whose declared `msg_len` is 100 although only
14 bytes follow the length field. -/
def buf_short : List Byte :=
  [100, 3, 0, 0, 0, 0, 0x04, 0xba, 0xaf, 0xfb, 1, 0x31, 0xb5, 0xc9, 0xe1]

/-- A concrete Store environment: one known channel, identity want-set,
every post valid, post decoding consumes the whole buffer, a post's hash
is its own bytes. -/
def env_w : StoreEnv :=
  { getPostPayloads := fun _ => []
    getPostHashes := fun _ => []
    getChannels := [channel_default]
    want := fun hs => hs
    postVerify := fun _ => true
    postFromBytes := fun pb => (pb.length, pb)
    postHash := fun p => p }

/-- A base manager state: one registered peer, empty tables. -/
def st_base : ManagerState :=
  { peers := [1]
    last_peer_id := 1
    last_req_id := 0
    forwarded_requests := []
    handled_requests := []
    live_requests := []
    outbound_requests := []
    requested_posts := [] }

/-- Channel list request used against `env_w`: `skip = 0`, `limit = 20`,
while the Store holds a single channel. -/
def msg_cl20 : Message :=
  ⟨⟨6, NO_CIRCUIT, [4, 4, 4, 4]⟩, .request 0 (.channelList 0 20)⟩

/-- State whose `handled_requests` already contains `[9, 9, 9, 9]`. -/
def st_handled : ManagerState := { st_base with handled_requests := [[9, 9, 9, 9]] }

/-- A request message bearing the already-handled request ID. -/
def msg_dup : Message :=
  ⟨⟨2, NO_CIRCUIT, [9, 9, 9, 9]⟩, .request 1 (.post [[1]])⟩

/-- State with one requested post hash `[5]`. -/
def st_req5 : ManagerState := { st_base with requested_posts := [[5]] }

/-- The state `handle` produces from `st_req5` and a post response
carrying the single post `[5]` (under `env_w` the post verifies, its
decoded byte count matches, and its hash is `[5]`): the post is inserted,
its hash leaves `requested_posts`, and the request ID is marked
handled. -/
def st_post5 : ManagerState :=
  { st_req5 with requested_posts := [], handled_requests := [[4, 4, 4, 4]] }

/-- A remote-origin cancel request for request ID `[9,9,9,9]`, stored
with TTL 1. -/
def cancel_c4 : Message :=
  ⟨⟨3, NO_CIRCUIT, [1, 2, 3, 4]⟩, .request 1 (.cancel [9, 9, 9, 9])⟩

/-- Replay state: the outbound table holds the remote cancel, and
`forwarded_requests` has no entry for the cancelled ID. -/
def st_c4 : ManagerState :=
  { st_base with peers := [], outbound_requests := [([1, 2, 3, 4], (.remote, cancel_c4))] }

/-- Replay state: as `st_c4`, but peer 7 is recorded as having been
forwarded the cancelled request. -/
def st_c4b : ManagerState := { st_c4 with forwarded_requests := [([9, 9, 9, 9], [7])] }

/-- The encoding of `cancel_c4` (15 bytes). -/
def bytes_cancel_c4 : List Byte := [14, 3, 0, 0, 0, 0, 1, 2, 3, 4, 1, 9, 9, 9, 9]

/-- A locally originated channel time range request for the reference
channel, as held in `outbound_requests` when a channel is open. -/
def ctr_open : Message :=
  channel_time_range_request NO_CIRCUIT [1, 2, 3, 4] TTL ⟨channel_default, 0, 0, 10⟩

/-- Live-subscription options used by the insertion-only witness. -/
def opts_w : ChannelOptions := ⟨[0x61], 0, 0, 10⟩

/-- State holding one live subscription of peer 7. -/
def st_live : ManagerState :=
  { st_base with live_requests := [(7, [([0, 0, 0, 1], opts_w)])] }

/-- A cancel request naming the live subscription's request ID. -/
def msg_cancel_live : Message :=
  ⟨⟨3, NO_CIRCUIT, [2, 2, 2, 2]⟩, .request 1 (.cancel [0, 0, 0, 1])⟩

/-- The state `handle` produces from `st_live` and `msg_cancel_live`: the
cancel is recorded in `outbound_requests` with TTL 0 and the request ID is
marked handled; the live subscription stays. -/
def st_live_after : ManagerState :=
  { st_live with
      handled_requests := [[2, 2, 2, 2]],
      outbound_requests :=
        [([2, 2, 2, 2],
          (RequestOrigin.remote, ⟨⟨3, NO_CIRCUIT, [2, 2, 2, 2]⟩, .request 0 (.cancel [0, 0, 0, 1])⟩))] }

theorem mem_of_mem_set_remove {α : Type _} [DecidableEq α] {a b : α} {l : List α}
    (h : a ∈ set_remove b l) : a ∈ l :=
  (List.mem_filter.mp h).1

theorem not_mem_set_remove_self {α : Type _} [DecidableEq α] (a : α) (l : List α) :
    a ∉ set_remove a l := by
  intro h
  have hp := (List.mem_filter.mp h).2
  simp at hp

theorem not_mem_set_remove_of_not_mem {α : Type _} [DecidableEq α] {a b : α} {l : List α}
    (h : a ∉ l) : a ∉ set_remove b l :=
  fun hm => h (mem_of_mem_set_remove hm)

theorem mem_set_remove_of_ne {α : Type _} [DecidableEq α] {a b : α} {l : List α}
    (hm : a ∈ l) (hne : a ≠ b) : a ∈ set_remove b l :=
  List.mem_filter.mpr ⟨hm, by simp [hne]⟩

theorem insert_count_nil (env : StoreEnv) (h : Hash) : insert_count env h [] = 0 := rfl

theorem insert_count_cons (env : StoreEnv) (h : Hash) (p : PostVal) (evs : List Event) :
    insert_count env h (Event.storeInsertPost p :: evs) =
      (if env.postHash p = h then 1 else 0) + insert_count env h evs := by
  simp only [insert_count, List.filter_cons]
  split
  · next hc =>
    have : env.postHash p = h := by simpa using hc
    simp [this, Nat.add_comm]
  · next hc =>
    have : ¬ env.postHash p = h := by simpa using hc
    simp [this]

/-- A post inserted by the post response loop had its hash among the
requested posts at loop entry. -/
theorem process_posts_insert_mem (env : StoreEnv) :
    ∀ (posts : List EncodedPost) (requested : List Hash) (p : PostVal),
      Event.storeInsertPost p ∈ (process_posts env requested posts).2 →
      env.postHash p ∈ requested := by
  intro posts
  induction posts with
  | nil => intro requested p hm; simp [process_posts] at hm
  | cons pb rest ih =>
    intro requested p hm
    simp only [process_posts] at hm
    split at hm
    · exact ih requested p hm
    · split at hm
      · exact ih requested p hm
      · split at hm
        · next hin =>
          simp only [List.mem_cons] at hm
          rcases hm with hm | hm
          · cases hm
            exact hin
          · exact mem_of_mem_set_remove (ih _ p hm)
        · exact ih requested p hm

/-- The post response loop never adds to `requested_posts`. -/
theorem process_posts_not_mem (env : StoreEnv) :
    ∀ (posts : List EncodedPost) (requested : List Hash) (h : Hash),
      h ∉ requested → h ∉ (process_posts env requested posts).1 := by
  intro posts
  induction posts with
  | nil => intro requested h hn; simpa [process_posts] using hn
  | cons pb rest ih =>
    intro requested h hn
    simp only [process_posts]
    split
    · exact ih requested h hn
    · split
      · exact ih requested h hn
      · split
        · exact ih _ h (not_mem_set_remove_of_not_mem hn)
        · exact ih requested h hn

/-- Counting lemma for the post response loop: a hash absent from
`requested_posts` is never inserted; no hash is inserted more than once;
and a hash that was inserted is no longer in `requested_posts` at loop
exit. -/
theorem process_posts_count (env : StoreEnv) :
    ∀ (posts : List EncodedPost) (requested : List Hash) (h : Hash),
      (h ∉ requested → insert_count env h (process_posts env requested posts).2 = 0) ∧
      insert_count env h (process_posts env requested posts).2 ≤ 1 ∧
      (1 ≤ insert_count env h (process_posts env requested posts).2 →
        h ∉ (process_posts env requested posts).1) := by
  intro posts
  induction posts with
  | nil =>
    intro requested h
    refine ⟨fun _ => rfl, by simp [process_posts, insert_count_nil], fun hge => ?_⟩
    simp [process_posts, insert_count_nil] at hge
  | cons pb rest ih =>
    intro requested h
    simp only [process_posts]
    split
    · exact ih requested h
    · split
      · exact ih requested h
      · split
        · next hin =>
          by_cases hph : env.postHash (env.postFromBytes pb).2 = h
          · subst hph
            have hnr := not_mem_set_remove_self (env.postHash (env.postFromBytes pb).2) requested
            have h0 := (ih (set_remove (env.postHash (env.postFromBytes pb).2) requested)
              (env.postHash (env.postFromBytes pb).2)).1 hnr
            refine ⟨fun habs => absurd hin habs, ?_, fun _ => ?_⟩
            · simp [insert_count_cons, h0]
            · exact process_posts_not_mem env rest _ _ hnr
          · have ihr := ih (set_remove (env.postHash (env.postFromBytes pb).2) requested) h
            have hcons : insert_count env h
                (Event.storeInsertPost (env.postFromBytes pb).2 ::
                  (process_posts env
                    (set_remove (env.postHash (env.postFromBytes pb).2) requested) rest).2) =
                insert_count env h
                  (process_posts env
                    (set_remove (env.postHash (env.postFromBytes pb).2) requested) rest).2 := by
              simp [insert_count_cons, hph]
            refine ⟨fun hnm => ?_, ?_, fun hge => ?_⟩
            · rw [hcons]
              exact ihr.1 (not_mem_set_remove_of_not_mem hnm)
            · rw [hcons]
              exact ihr.2.1
            · rw [hcons] at hge
              exact ihr.2.2 hge
        · exact ih requested h

/-- Positive direction of the post response loop: when a hash is in
`requested_posts` at loop entry and the batch contains a post that
verifies, whose decoded byte count matches, and whose hash is that hash,
then at least one Store insertion with that hash occurs. -/
theorem process_posts_inserts (env : StoreEnv) :
    ∀ (posts : List EncodedPost) (requested : List Hash) (h : Hash),
      h ∈ requested →
      (∃ pb ∈ posts, env.postVerify pb = true ∧ (env.postFromBytes pb).1 = pb.length ∧
        env.postHash (env.postFromBytes pb).2 = h) →
      1 ≤ insert_count env h (process_posts env requested posts).2 := by
  intro posts
  induction posts with
  | nil =>
    intro requested h _ hex
    simp at hex
  | cons pb₀ rest ih =>
    intro requested h hreq hex
    simp only [process_posts]
    split
    · next hv =>
      refine ih requested h hreq ?_
      rcases hex with ⟨pb, hmem, hP⟩
      rcases List.mem_cons.mp hmem with rfl | hm2
      · have hv2 : env.postVerify pb = false := by simpa using hv
        rw [hP.1] at hv2
        cases hv2
      · exact ⟨pb, hm2, hP⟩
    · split
      · next hlen =>
        refine ih requested h hreq ?_
        rcases hex with ⟨pb, hmem, hP⟩
        rcases List.mem_cons.mp hmem with rfl | hm2
        · exact absurd hP.2.1 hlen
        · exact ⟨pb, hm2, hP⟩
      · split
        · next hin =>
          by_cases hph : env.postHash (env.postFromBytes pb₀).2 = h
          · simp [insert_count_cons, hph]
          · have hmem₁ : h ∈ set_remove (env.postHash (env.postFromBytes pb₀).2) requested :=
              mem_set_remove_of_ne hreq (fun hh => hph hh.symm)
            have hex₁ : ∃ pb ∈ rest, env.postVerify pb = true ∧
                (env.postFromBytes pb).1 = pb.length ∧
                env.postHash (env.postFromBytes pb).2 = h := by
              rcases hex with ⟨pb, hmem, hP⟩
              rcases List.mem_cons.mp hmem with rfl | hm2
              · exact absurd hP.2.2 hph
              · exact ⟨pb, hm2, hP⟩
            have hrec := ih _ h hmem₁ hex₁
            simpa [insert_count_cons, hph] using hrec
        · next hnin =>
          refine ih requested h hreq ?_
          rcases hex with ⟨pb, hmem, hP⟩
          rcases List.mem_cons.mp hmem with rfl | hm2
          · refine absurd ?_ hnin
            rw [hP.2.2]
            exact hreq
          · exact ⟨pb, hm2, hP⟩

theorem live_entries_append (l₁ l₂ : List (PeerId × List (ReqId × ChannelOptions))) :
    live_entries (l₁ ++ l₂) = live_entries l₁ ++ live_entries l₂ := by
  simp [live_entries]

theorem al_insert_of_lookup_none {κ α : Type _} [DecidableEq κ] {k : κ} {l : List (κ × α)}
    (h : al_lookup k l = none) (v : α) : al_insert k v l = l ++ [(k, v)] := by
  induction l with
  | nil => rfl
  | cons hd t ih =>
    simp only [al_lookup] at h
    by_cases hk : hd.1 = k
    · simp [hk] at h
    · simp only [al_insert]
      rw [if_neg hk, ih (by simpa [hk] using h)]
      rfl

theorem mem_live_entries_al_insert {p : PeerId} {rs : List (ReqId × ChannelOptions)}
    {l : List (PeerId × List (ReqId × ChannelOptions))} (x : ReqId × ChannelOptions)
    (hl : al_lookup p l = some rs) :
    ∀ e ∈ live_entries l, e ∈ live_entries (al_insert p (rs ++ [x]) l) := by
  induction l with
  | nil => simp [al_lookup] at hl
  | cons hd t ih =>
    obtain ⟨hp, hs⟩ := hd
    intro e he
    simp only [al_lookup] at hl
    by_cases hk : hp = p
    · subst hk
      rw [if_pos rfl] at hl
      have hrs : hs = rs := by injection hl
      subst hrs
      have hins : al_insert hp (hs ++ [x]) ((hp, hs) :: t) = (hp, hs ++ [x]) :: t := by
        simp [al_insert]
      rw [hins]
      simp only [live_entries, List.flatMap_cons, List.mem_append] at he ⊢
      rcases he with he | he
      · left
        rcases List.mem_map.mp he with ⟨y, hy, rfl⟩
        exact List.mem_map.mpr ⟨y, List.mem_append_left _ hy, rfl⟩
      · right
        exact he
    · rw [if_neg hk] at hl
      simp only [al_insert, if_neg hk]
      simp only [live_entries, List.flatMap_cons, List.mem_append] at he ⊢
      rcases he with he | he
      · left
        exact he
      · right
        exact ih hl e he

/-- Pushing a live subscription preserves every existing entry. -/
theorem mem_live_entries_push (p : PeerId) (x : ReqId × ChannelOptions)
    (l : List (PeerId × List (ReqId × ChannelOptions))) :
    ∀ e ∈ live_entries l, e ∈ live_entries (push_live p x l) := by
  intro e he
  unfold push_live
  cases hl : al_lookup p l with
  | some rs => exact mem_live_entries_al_insert x hl e he
  | none =>
    rw [al_insert_of_lookup_none hl, live_entries_append]
    exact List.mem_append_left _ he

theorem forward_insert_live (st : ManagerState) (msg : Message) :
    (forward_insert st msg).live_requests = st.live_requests := rfl

theorem forward_insert_peers (st : ManagerState) (msg : Message) :
    (forward_insert st msg).peers = st.peers := rfl

/-- The dispatcher body never removes a live subscription. -/
theorem handle_body_live_mono (env : StoreEnv) (st : ManagerState) (peer : PeerId)
    (msg : Message) (st₁ : ManagerState) (evs : List Event)
    (hb : handle_body env st peer msg = .ok (st₁, evs)) :
    ∀ e ∈ live_entries st.live_requests, e ∈ live_entries st₁.live_requests := by
  intro e he
  rcases msg with ⟨hd, body⟩
  cases body with
  | request ttl rb =>
    cases rb with
    | post hashes =>
      simp only [handle_body] at hb
      split at hb <;> cases hb <;> exact he
    | cancel cancel_id =>
      simp only [handle_body] at hb
      cases hb
      exact he
    | channelTimeRange channel time_start time_end limit =>
      simp only [handle_body] at hb
      split at hb <;> split at hb <;> cases hb <;>
        first
          | exact he
          | exact mem_live_entries_push _ _ _ e he
    | channelState channel future =>
      simp only [handle_body] at hb
      split at hb <;> cases hb <;> exact he
    | channelList skip limit =>
      simp only [handle_body] at hb
      split at hb <;> try split at hb
      all_goals cases hb <;> exact he
  | response rb =>
    cases rb with
    | hash hashes =>
      simp only [handle_body] at hb
      split at hb <;> cases hb <;> exact he
    | post posts =>
      simp only [handle_body] at hb
      cases hb
      exact he
    | channelList channels =>
      simp only [handle_body] at hb
      cases hb
      exact he
  | unrecognized t =>
    simp only [handle_body] at hb
    cases hb
    exact he

/-- The dispatcher never removes a live subscription. -/
theorem handle_live_mono (env : StoreEnv) (st : ManagerState) (peer : PeerId)
    (msg : Message) (st₁ : ManagerState) (evs : List Event)
    (hh : handle env st peer msg = .ok (st₁, evs)) :
    ∀ e ∈ live_entries st.live_requests, e ∈ live_entries st₁.live_requests := by
  intro e he
  unfold handle at hh
  split at hh
  · cases hh
    exact he
  · cases hb : handle_body env st peer msg with
    | ok r =>
      rw [hb] at hh
      cases hh
      exact handle_body_live_mono env st peer msg r.1 r.2 (by rw [hb]) e he
    | error err => rw [hb] at hh; cases hh

/-- One replay-loop iteration leaves `live_requests` untouched (it only
writes to the stream and updates `forwarded_requests` and
`outbound_requests`). -/
theorem replay_cancel_step_live (peer : PeerId) (st : ManagerState) (evs : List Event)
    (origin : RequestOrigin) (msg : Message) (rb : RequestBody) (st₁ : ManagerState)
    (evs₁ : List Event)
    (hc : replay_cancel_step peer st evs origin msg rb = .ok (some (st₁, evs₁))) :
    st₁.live_requests = st.live_requests := by
  cases rb <;> cases origin <;> simp only [replay_cancel_step] at hc <;>
    try (cases hc; rfl)
  next cancel_id =>
    split at hc
    · split at hc
      · split at hc
        · cases hc
          rfl
        · cases hc
      · cases hc
    · cases hc
      rfl

theorem replay_send_step_live (peer : PeerId) (st : ManagerState) (evs : List Event)
    (req_id : ReqId) (origin : RequestOrigin) (msg : Message) (ttl : Nat)
    (st₁ : ManagerState) (evs₁ : List Event)
    (hs : replay_send_step peer st evs req_id origin msg ttl = .ok (st₁, evs₁)) :
    st₁.live_requests = st.live_requests := by
  simp only [replay_send_step] at hs
  split at hs
  · cases hs
    rfl
  · split at hs
    · cases origin <;> simp only [] at hs <;> cases hs <;> rfl
    · cases hs

/-- One replay-loop iteration leaves `live_requests` untouched (it only
writes to the stream and updates `forwarded_requests` and
`outbound_requests`). -/
theorem process_one_live (peer : PeerId) (st : ManagerState) (evs : List Event)
    (req_id : ReqId) (origin : RequestOrigin) (msg : Message) (st₁ : ManagerState)
    (evs₁ : List Event) (hp : process_one peer st evs req_id origin msg = .ok (st₁, evs₁)) :
    st₁.live_requests = st.live_requests := by
  rcases msg with ⟨hd, body⟩
  cases body with
  | request ttl rb =>
    simp only [process_one] at hp
    cases hc : replay_cancel_step peer st evs origin ⟨hd, .request ttl rb⟩ rb with
    | error e => rw [hc] at hp; cases hp
    | ok o =>
      rw [hc] at hp
      cases o with
      | none =>
        cases hp
        rfl
      | some r =>
        have h₁ := replay_cancel_step_live peer st evs origin ⟨hd, .request ttl rb⟩ rb r.1 r.2
          (by rw [hc])
        have h₂ := replay_send_step_live peer r.1 r.2 req_id origin ⟨hd, .request ttl rb⟩ ttl
          st₁ evs₁ hp
        rw [h₂, h₁]
  | response rb =>
    simp only [process_one] at hp
    cases hp
    rfl
  | unrecognized t =>
    simp only [process_one] at hp
    cases hp
    rfl

/-- The replay loop leaves `live_requests` untouched. -/
theorem process_outbound_loop_live (peer : PeerId) :
    ∀ (entries : List (ReqId × RequestOrigin × Message)) (st : ManagerState)
      (evs : List Event) (st₁ : ManagerState) (evs₁ : List Event),
      process_outbound_loop peer entries st evs = .ok (st₁, evs₁) →
      st₁.live_requests = st.live_requests := by
  intro entries
  induction entries with
  | nil =>
    intro st evs st₁ evs₁ hp
    simp only [process_outbound_loop] at hp
    cases hp
    rfl
  | cons entry rest ih =>
    intro st evs st₁ evs₁ hp
    simp only [process_outbound_loop] at hp
    cases ho : process_one peer st evs entry.1 entry.2.1 entry.2.2 with
    | ok r =>
      rw [ho] at hp
      have h₁ := process_one_live peer st evs entry.1 entry.2.1 entry.2.2 r.1 r.2 (by rw [ho])
      rw [ih r.1 r.2 st₁ evs₁ hp, h₁]
    | error e => rw [ho] at hp; cases hp

/-- The close-channel loop leaves `live_requests` untouched. -/
theorem close_channel_loop_live :
    ∀ (ids : List ReqId) (st : ManagerState) (evs : List Event),
      (close_channel_loop ids st evs).1.live_requests = st.live_requests := by
  intro ids
  induction ids with
  | nil => intro st evs; rfl
  | cons cid rest ih => intro st evs; simpa [close_channel_loop] using ih _ _

/-- Every message queued by `send_post_hashes_for_peer` targets a
registered peer. -/
theorem send_post_hashes_for_peer_sent (env : StoreEnv) (st : ManagerState) (peer : PeerId) :
    ∀ (rqs : List (ReqId × ChannelOptions)) (p : PeerId) (m : Message),
      Event.sent p m ∈ send_post_hashes_for_peer env st peer rqs → p ∈ st.peers := by
  intro rqs
  induction rqs with
  | nil => intro p m hm; simp [send_post_hashes_for_peer] at hm
  | cons rq rest ih =>
    intro p m hm
    simp only [send_post_hashes_for_peer, List.mem_append] at hm
    rcases hm with (hm | hm) | hm
    · simp at hm
    · simp only [send_events] at hm
      split at hm
      · next hin =>
        simp only [List.mem_singleton] at hm
        cases hm
        exact hin
      · simp at hm
    · exact ih p m hm

/-- Every message queued by `send_post_hashes` targets a registered peer;
sends for departed peers are no-ops. -/
theorem send_post_hashes_sent (env : StoreEnv) (st : ManagerState) :
    ∀ (l : List (PeerId × List (ReqId × ChannelOptions))) (p : PeerId) (m : Message),
      Event.sent p m ∈ send_post_hashes_loop env st l → p ∈ st.peers := by
  intro l
  induction l with
  | nil => intro p m hm; simp [send_post_hashes_loop] at hm
  | cons pr rest ih =>
    intro p m hm
    simp only [send_post_hashes_loop, List.mem_append] at hm
    rcases hm with hm | hm
    · exact send_post_hashes_for_peer_sent env st pr.1 pr.2 p m hm
    · exact ih p m hm

theorem mem_set_insert_self {α : Type _} [DecidableEq α] (a : α) (l : List α) :
    a ∈ set_insert a l := by
  unfold set_insert
  split
  · assumption
  · simp

/-- A message whose request ID is already in `handled_requests` is dropped
with no state change and no events. -/
theorem handle_of_mem_handled (env : StoreEnv) (st : ManagerState) (peer : PeerId)
    (msg : Message) (h : msg.header.req_id ∈ st.handled_requests) :
    handle env st peer msg = .ok (st, []) := by
  unfold handle
  rw [if_pos h]

/-- On normal exit of the dispatcher the request ID is in
`handled_requests`. -/
theorem handle_ok_mem_handled (env : StoreEnv) (st : ManagerState) (peer : PeerId)
    (msg : Message) (st₁ : ManagerState) (evs : List Event)
    (hh : handle env st peer msg = .ok (st₁, evs)) :
    msg.header.req_id ∈ st₁.handled_requests := by
  unfold handle at hh
  split at hh
  · next h =>
    cases hh
    exact h
  · cases hb : handle_body env st peer msg with
    | ok r =>
      rw [hb] at hh
      cases hh
      exact mem_set_insert_self _ _
    | error e => rw [hb] at hh; cases hh

/-! ## Claim theorems -/

/-- C1 (status: the code violates the claim). The claim states
`decode(encode(m)) == m` for every recognised message. Evaluating the
code at the spec's own §6.1 `ChannelTimeRange` reference message shows
encoding produces exactly the reference bytes, but decoding them back
yields `time_start = 101`, `time_end = 102`, `limit = 97` (bytes read from
inside the channel name, because `from_bytes` advances the offset by the
varint length of `channel_len` instead of by `channel_len`), so the round
trip does not return the original message. -/
theorem claim_c1_round_trip_fails :
    to_bytes msg_ctr = .ok bytes_ctr ∧
    (to_bytes msg_ctr).bind from_bytes = .ok (16, msg_ctr_decoded) ∧
    msg_ctr_decoded ≠ msg_ctr := by decide

set_option maxRecDepth 8192 in
/-- C2 (status: the code violates the claim). The claim states that the
emitted `msg_len` field equals the number of bytes following it and that
`count_bytes` equals `length(msg_len) + msg_len`. For a post response
whose header-plus-body size is 127 (frame size 128, just past the varint
length boundary), the emitted frame is 128 bytes whose `msg_len` field
decodes to 126, although 127 bytes follow it, and
`length(126) + 126 = 127 ≠ count_bytes = 128`. -/
theorem claim_c2_frame_length_fails :
    count_bytes msg_pr127 = 128 ∧
    (to_bytes msg_pr127).map (fun bs => (bs.length, varint_decode bs)) =
      .ok (128, .ok (1, 126)) ∧
    (126 : Nat) ≠ 128 - 1 ∧
    varint_length 126 + 126 ≠ count_bytes msg_pr127 := by decide

/-- C3 (status: the code violates the claim). The claim states that
`close_channel` releases the `outbound_requests` write lock before
acquiring it again. In the source the write guard is held for the whole
method and the loop body acquires the same lock again to record each
cancel request; with one locally originated channel time range request
for the closed channel, the attempted lock sequence acquires
`outbound_requests` while already holding it (a self-deadlock with the
non-reentrant RwLock). -/
theorem claim_c3_close_channel_nested_lock :
    close_channel_matching_ids [([1, 2, 3, 4], (.local, ctr_open))] channel_default =
      [[1, 2, 3, 4]] ∧
    has_nested_acquire []
      (close_channel_lock_trace [([1, 2, 3, 4], (.local, ctr_open))] channel_default) = true := by
  decide

/-- C4 (status: the code violates the claim). The claim states that
during the replay pass a remote-origin `Cancel` is written exactly once
and only when the peer is in `forwarded_requests[cancel_id]`, and never
when that entry is absent. With no entry for the cancelled ID and stored
TTL 1, the cancel pre-block falls through and the message is written
anyway (and the peer is then recorded under the cancel's own request ID);
with the peer present in the entry, the message is written twice. -/
theorem claim_c4_cancel_replay_divergence :
    al_lookup [9, 9, 9, 9] st_c4.forwarded_requests = none ∧
    process_and_send_outbound_requests 7 st_c4 =
      .ok ({ st_c4 with forwarded_requests := [([1, 2, 3, 4], [7])] },
        [.wrote 7 bytes_cancel_c4]) ∧
    process_and_send_outbound_requests 7 st_c4b =
      .ok ({ st_c4b with forwarded_requests := [([1, 2, 3, 4], [7])] },
        [.wrote 7 bytes_cancel_c4, .wrote 7 bytes_cancel_c4]) := by decide

/-- C5 (status: the code violates the claim). The claim states that
decoded request TTLs lie in `[0, 16]`, wire values above 16 saturating to
16. The decoder applies no clamp (the source carries a TODO for it): a
wire TTL of 17 decodes to 17, and a wire TTL of 300 decodes to
`300 % 256 = 44` via the `as u8` cast. -/
theorem claim_c5_ttl_not_clamped :
    from_bytes buf_ttl17 =
      .ok (13, ⟨⟨6, NO_CIRCUIT, req_id_tv⟩, .request 17 (.channelList 0 20)⟩) ∧
    ¬ (17 : Nat) ≤ 16 ∧
    from_bytes buf_ttl300 =
      .ok (14, ⟨⟨6, NO_CIRCUIT, req_id_tv⟩, .request 44 (.channelList 0 20)⟩) := by decide

/-- C6 (status: the code violates the claim). The claim states that a
buffer shorter than its declared `msg_len` fails to decode with
`ShortBuffer`. `from_bytes` computes the declared length but never checks
it: a 15-byte cancel frame declaring `msg_len = 100` (so 101 declared
total bytes) decodes successfully instead of returning `ShortBuffer`
(and buffers truncated inside a field panic instead). -/
theorem claim_c6_no_short_buffer_error :
    buf_short.length = 15 ∧
    count_from_bytes buf_short = .ok 101 ∧
    from_bytes buf_short =
      .ok (15, ⟨⟨3, NO_CIRCUIT, req_id_tv⟩, .request 1 (.cancel [0x31, 0xb5, 0xc9, 0xe1])⟩) := by
  decide

/-- C7 (status: the code violates the claim). The claim states that the
channel list handler replies with the clamped slice and never panics. The
handler drains `all_channels[skip .. min(limit, 4096)]` without clamping:
with a single known channel and the spec's own reference parameters
`skip = 0`, `limit = 20`, the drain bounds exceed the vector length and
the dispatcher panics. -/
theorem claim_c7_channel_list_drain_panics :
    env_w.getChannels.length = 1 ∧
    handle env_w st_base 1 msg_cl20 = .error .panicDrain := by decide

/-- C8: loop suppression. A message whose request ID is already in
`handled_requests` is dropped with no Store query, no table mutation and
no send; on normal exit of any dispatch the request ID is recorded in
`handled_requests`; hence delivering a second message with the same
request ID leaves the state unchanged and performs no Store operation, so
Store operations happen exactly once across the two deliveries. -/
theorem claim_c8_loop_suppression (env : StoreEnv) (st : ManagerState) (peer : PeerId)
    (msg : Message) :
    (msg.header.req_id ∈ st.handled_requests → handle env st peer msg = .ok (st, [])) ∧
    (∀ (st₁ : ManagerState) (evs : List Event), handle env st peer msg = .ok (st₁, evs) →
      msg.header.req_id ∈ st₁.handled_requests) ∧
    (∀ (st₁ : ManagerState) (evs : List Event) (peer₂ : PeerId) (msg₂ : Message),
      handle env st peer msg = .ok (st₁, evs) →
      msg₂.header.req_id = msg.header.req_id →
      handle env st₁ peer₂ msg₂ = .ok (st₁, [])) := by
  refine ⟨fun h => handle_of_mem_handled env st peer msg h,
    fun st₁ evs hh => handle_ok_mem_handled env st peer msg st₁ evs hh,
    fun st₁ evs peer₂ msg₂ hh heq => ?_⟩
  refine handle_of_mem_handled env st₁ peer₂ msg₂ ?_
  rw [heq]
  exact handle_ok_mem_handled env st peer msg st₁ evs hh

/-- Witness for C8 at a concrete input: the duplicate request ID
`[9,9,9,9]` is already handled, and redelivery leaves the state unchanged
with no events. -/
theorem claim_c8_loop_suppression_witness :
    msg_dup.header.req_id ∈ st_handled.handled_requests ∧
      handle env_w st_handled 1 msg_dup = .ok (st_handled, []) :=
  ⟨by decide, (claim_c8_loop_suppression env_w st_handled 1 msg_dup).1 (by decide)⟩

/-- C9: the Hash-to-Post pipeline. On a hash response with a non-empty
want-set, the dispatcher generates a fresh request ID from the counter,
sends a post request with TTL 1 for the wanted hashes to the same peer,
and inserts every wanted hash into `requested_posts`. On a post response,
a post whose hash is not in `requested_posts` is never inserted into the
Store, no hash is inserted more than once, an inserted hash has left
`requested_posts`, and — the positive direction — an accepted post (one
that verifies, whose decoded byte count matches, and whose hash is in
`requested_posts`) is inserted into the Store exactly once, with its hash
removed from `requested_posts`. -/
theorem claim_c9_hash_post_pipeline (env : StoreEnv) (st : ManagerState) (peer : PeerId)
    (t : Nat) (cid : CircuitId) (rid : ReqId)
    (hhandled : rid ∉ st.handled_requests) (hpeer : peer ∈ st.peers) :
    (∀ hs : List Hash, env.want hs ≠ [] →
      handle env st peer ⟨⟨t, cid, rid⟩, .response (.hash hs)⟩ =
        .ok ({ st with
                last_req_id := next_u32 st.last_req_id,
                requested_posts := insert_all (env.want hs) st.requested_posts,
                handled_requests := set_insert rid st.handled_requests },
          [.storeWant hs,
           .sent peer (post_request cid (u32_to_bytes (next_u32 st.last_req_id)) TTL
             (env.want hs))])) ∧
    (∀ (posts : List EncodedPost) (st₁ : ManagerState) (evs : List Event),
      handle env st peer ⟨⟨t, cid, rid⟩, .response (.post posts)⟩ = .ok (st₁, evs) →
      (∀ p : PostVal, Event.storeInsertPost p ∈ evs → env.postHash p ∈ st.requested_posts) ∧
      (∀ h : Hash, insert_count env h evs ≤ 1) ∧
      (∀ h : Hash, 1 ≤ insert_count env h evs → h ∉ st₁.requested_posts) ∧
      (∀ h : Hash, h ∈ st.requested_posts →
        (∃ pb ∈ posts, env.postVerify pb = true ∧ (env.postFromBytes pb).1 = pb.length ∧
          env.postHash (env.postFromBytes pb).2 = h) →
        insert_count env h evs = 1 ∧ h ∉ st₁.requested_posts)) := by
  constructor
  · intro hs hw
    unfold handle
    split
    · next hmem => exact absurd hmem hhandled
    · cases hwl : env.want hs with
      | nil => exact absurd hwl hw
      | cons a as =>
        simp only [handle_body, hwl, send_events, hpeer]
        simp [List.isEmpty]
  · intro posts st₁ evs hh
    have hcomp : handle env st peer ⟨⟨t, cid, rid⟩, .response (.post posts)⟩ =
        .ok ({ st with
                requested_posts := (process_posts env st.requested_posts posts).1,
                handled_requests := set_insert rid st.handled_requests },
          (process_posts env st.requested_posts posts).2) := by
      unfold handle
      split
      · next hmem => exact absurd hmem hhandled
      · simp only [handle_body]
    rw [hcomp] at hh
    cases hh
    refine ⟨fun p hp => process_posts_insert_mem env posts st.requested_posts p hp,
      fun h => (process_posts_count env posts st.requested_posts h).2.1,
      fun h hge => (process_posts_count env posts st.requested_posts h).2.2 hge,
      fun h hmem hex => ?_⟩
    have h₁ := process_posts_inserts env posts st.requested_posts h hmem hex
    exact ⟨Nat.le_antisymm (process_posts_count env posts st.requested_posts h).2.1 h₁,
      (process_posts_count env posts st.requested_posts h).2.2 h₁⟩

/-- Witness for C9 at concrete inputs, exercising both legs: a hash
response naming the absent hash `[7]` makes the dispatcher request the
post (request ID generated from the counter, TTL 1, same peer) and record
the hash; and a post response carrying the requested post `[5]` makes the
dispatcher insert that post into the Store exactly once, with its hash
leaving `requested_posts`. -/
theorem claim_c9_hash_post_pipeline_witness :
    (([4, 4, 4, 4] : ReqId) ∉ st_req5.handled_requests) ∧ 1 ∈ st_req5.peers ∧
      env_w.want [[7]] ≠ [] ∧
      handle env_w st_req5 1 ⟨⟨0, NO_CIRCUIT, [4, 4, 4, 4]⟩, .response (.hash [[7]])⟩ =
        .ok ({ st_req5 with
                last_req_id := next_u32 st_req5.last_req_id,
                requested_posts := insert_all (env_w.want [[7]]) st_req5.requested_posts,
                handled_requests := set_insert [4, 4, 4, 4] st_req5.handled_requests },
          [.storeWant [[7]],
           .sent 1 (post_request NO_CIRCUIT (u32_to_bytes (next_u32 st_req5.last_req_id)) TTL
             (env_w.want [[7]]))]) ∧
      ([5] : Hash) ∈ st_req5.requested_posts ∧
      handle env_w st_req5 1 ⟨⟨1, NO_CIRCUIT, [4, 4, 4, 4]⟩, .response (.post [[5]])⟩ =
        .ok (st_post5, [Event.storeInsertPost [5]]) ∧
      insert_count env_w [5] [Event.storeInsertPost [5]] = 1 ∧
      ([5] : Hash) ∉ st_post5.requested_posts :=
  ⟨by decide, by decide, by decide,
    (claim_c9_hash_post_pipeline env_w st_req5 1 0 NO_CIRCUIT [4, 4, 4, 4]
      (by decide) (by decide)).1 [[7]] (by decide),
    by decide,
    by decide,
    (((claim_c9_hash_post_pipeline env_w st_req5 1 1 NO_CIRCUIT [4, 4, 4, 4]
        (by decide) (by decide)).2 [[5]] st_post5 [Event.storeInsertPost [5]]
        (by decide)).2.2.2 [5] (by decide) (by decide)).1,
    (((claim_c9_hash_post_pipeline env_w st_req5 1 1 NO_CIRCUIT [4, 4, 4, 4]
        (by decide) (by decide)).2 [[5]] st_post5 [Event.storeInsertPost [5]]
        (by decide)).2.2.2 [5] (by decide) (by decide)).2⟩

/-- C10: `live_requests` is insertion-only. The dispatcher only ever adds
live entries (in particular handling a `Cancel` leaves them in place);
the replay pass, `close_channel`, `open_channel` and the peer-session
cleanup at the end of `listen` do not touch the table at all; and the
live broadcaster only queues messages for currently registered peers, so
sends for departed peers are no-ops. -/
theorem claim_c10_live_requests_insertion_only (env : StoreEnv) (st : ManagerState)
    (peer : PeerId) (msg : Message) (opts : ChannelOptions) (channel : Chan) :
    (∀ (st₁ : ManagerState) (evs : List Event), handle env st peer msg = .ok (st₁, evs) →
      ∀ e ∈ live_entries st.live_requests, e ∈ live_entries st₁.live_requests) ∧
    (∀ (st₁ : ManagerState) (evs : List Event),
      process_and_send_outbound_requests peer st = .ok (st₁, evs) →
      st₁.live_requests = st.live_requests) ∧
    (close_channel_state st channel).1.live_requests = st.live_requests ∧
    (open_channel_state st opts).1.live_requests = st.live_requests ∧
    (listen_cleanup st peer).live_requests = st.live_requests ∧
    (∀ (p : PeerId) (m : Message), Event.sent p m ∈ send_post_hashes env st → p ∈ st.peers) := by
  refine ⟨?_, ?_, ?_, rfl, rfl, ?_⟩
  · intro st₁ evs hh e he
    exact handle_live_mono env st peer msg st₁ evs hh e he
  · intro st₁ evs hp
    exact process_outbound_loop_live peer st.outbound_requests st [] st₁ evs hp
  · exact close_channel_loop_live _ st []
  · intro p m hm
    exact send_post_hashes_sent env st st.live_requests p m hm

/-- Witness for C10 at a concrete input: handling a cancel request naming
the live subscription's request ID records the cancel and leaves the
subscription of peer 7 in `live_requests`. -/
theorem claim_c10_live_requests_insertion_only_witness :
    handle env_w st_live 1 msg_cancel_live = .ok (st_live_after, []) ∧
      (7, (([0, 0, 0, 1] : ReqId), opts_w)) ∈ live_entries st_live_after.live_requests :=
  ⟨by decide,
    (claim_c10_live_requests_insertion_only env_w st_live 1 msg_cancel_live opts_w
        channel_default).1 st_live_after [] (by decide)
      (7, ([0, 0, 0, 1], opts_w)) (by decide)⟩

end Cable
